import Mathlib

/-!
Verification of the recursive segment-proof aggregation pipeline implemented in
src/prover/examples/zkmips.rs (functions aggregate_proof_all, aggregate_proof,
prove_groth16 and the CLI dispatch in main).

The external prover/verifier service (zkm_prover crate: prove_root,
prove_aggregation, prove_block, verify_root, verify_aggregation, verify_block)
is opaque to this file; it is modelled as an oracle that supplies the public
values of each segment's root proof and a success flag for every external call.
The control logic of zkmips.rs is translated statement by statement into
functions that also record a trace of the external calls they perform, so that
ordering, pairing and failure-propagation properties can be stated over the
trace.
-/

namespace ZKM

/-- Public values carried by every proof (zkm_prover::proof::PublicValues as
used by zkmips.rs): a state commitment before, a state commitment after and
opaque user data.  The commitments and the user data are opaque blobs in the
source; they are modelled as natural numbers. -/
structure PublicValues where
  roots_before : Nat
  roots_after : Nat
  userdata : Nat
  deriving DecidableEq, Repr

/-- A proof handle, tagged with its provenance: either the root proof of one
segment (by index) or the aggregation of two previously produced proofs.  The
cryptographic payload is opaque and therefore omitted; the provenance is what
identifies a proof value flowing through zkmips.rs. -/
inductive Proof where
  | root (seg : Nat)
  | agg (left right : Proof)
  deriving DecidableEq, Repr

/-- Whether a proof is an aggregate (the meaning of the is_agg flags threaded
through zkmips.rs). -/
def Proof.isAgg : Proof → Bool
  | .root _ => false
  | .agg _ _ => true

/-- One external call performed by the pipeline, together with its outcome
where the call is fallible.  The trace of a run is a list of these events in
execution order. -/
inductive Event where
  | buildCircuits
  | proveRoot (seg : Nat) (ok : Bool)
  | verifyRoot (seg : Nat) (ok : Bool)
  | proveAgg (leftIsAgg : Bool) (left : Proof) (rightIsAgg : Bool) (right : Proof)
      (merged : PublicValues) (ok : Bool)
  | verifyAgg (p : Proof) (ok : Bool)
  | proveBlock (p : Proof) (pv : PublicValues) (ok : Bool)
  | verifyBlock (ok : Bool)
  | wrap
  deriving DecidableEq, Repr

/-- The failure outcomes of the pipeline (the anyhow errors and the explicit
abort of zkmips.rs, by the call that produced them). -/
inductive RunError where
  | segCountTooSmall
  | proveRootFailed (seg : Nat)
  | verifyRootFailed (seg : Nat)
  | proveAggFailed
  | verifyAggFailed
  | proveBlockFailed
  | verifyBlockFailed
  | unimplemented
  deriving DecidableEq, Repr

/-- The external prover/verifier service consumed by zkmips.rs, §2 of the
design: the public values each segment's root proof attests to, and the
success/failure outcome of every external call. -/
structure Oracle where
  rootPV : Nat → PublicValues
  proveRootOk : Nat → Bool
  verifyRootOk : Nat → Bool
  proveAggOk : Proof → Proof → Bool
  verifyAggOk : Proof → Bool
  proveBlockOk : Bool
  verifyBlockOk : Bool

/-- An oracle on which every external call succeeds: the pipeline under normal
operation, with the given per-segment public values. -/
def Oracle.ofPV (pv : Nat → PublicValues) : Oracle :=
  ⟨pv, fun _ => true, fun _ => true, fun _ _ => true, fun _ => true, true, true⟩

/-- Modelled from the spec: the public values returned by the external
prove_aggregation call (zkm_prover fixed_recursive_verifier, not under src/).
Section 4.3 requires the caller to pass exactly the merged public values and
states that the external prover does not re-derive them, so the returned
values are the merged values unchanged. -/
def prove_aggregation_pv (merged : PublicValues) : PublicValues := merged

/-- One iteration of the main loop of aggregate_proof_all (zkmips.rs lines
341-402): prove and verify the two root proofs of the pair (s1, s1+1), combine
them into a side aggregate with both kind flags false, verify it, then combine
the running accumulator with the side aggregate (left flag = is_agg, right
flag = true) and verify the result, which becomes the new accumulator.  A
failed external call ends the iteration with the corresponding error. -/
def loopIter (o : Oracle) (acc : Proof) (accPV : PublicValues) (b : Bool) (s1 : Nat) :
    List Event × Except RunError (Proof × PublicValues) :=
  let s2 := s1 + 1
  if !o.proveRootOk s1 then
    ([.proveRoot s1 false], .error (.proveRootFailed s1))
  else if !o.verifyRootOk s1 then
    ([.proveRoot s1 true, .verifyRoot s1 false], .error (.verifyRootFailed s1))
  else if !o.proveRootOk s2 then
    ([.proveRoot s1 true, .verifyRoot s1 true, .proveRoot s2 false],
      .error (.proveRootFailed s2))
  else if !o.verifyRootOk s2 then
    ([.proveRoot s1 true, .verifyRoot s1 true, .proveRoot s2 true, .verifyRoot s2 false],
      .error (.verifyRootFailed s2))
  else
    let newAggPV : PublicValues :=
      ⟨(o.rootPV s1).roots_before, (o.rootPV s2).roots_after, (o.rootPV s2).userdata⟩
    let side : Proof := .agg (.root s1) (.root s2)
    let evs4 : List Event :=
      [.proveRoot s1 true, .verifyRoot s1 true, .proveRoot s2 true, .verifyRoot s2 true]
    if !o.proveAggOk (.root s1) (.root s2) then
      (evs4 ++ [.proveAgg false (.root s1) false (.root s2) newAggPV false],
        .error .proveAggFailed)
    else if !o.verifyAggOk side then
      (evs4 ++ [.proveAgg false (.root s1) false (.root s2) newAggPV true,
        .verifyAgg side false], .error .verifyAggFailed)
    else
      let newUpdated := prove_aggregation_pv newAggPV
      let aggPV : PublicValues :=
        ⟨accPV.roots_before, newUpdated.roots_after, newUpdated.userdata⟩
      let newAcc : Proof := .agg acc side
      let evs6 : List Event := evs4 ++
        [.proveAgg false (.root s1) false (.root s2) newAggPV true, .verifyAgg side true]
      if !o.proveAggOk acc side then
        (evs6 ++ [.proveAgg b acc true side aggPV false], .error .proveAggFailed)
      else if !o.verifyAggOk newAcc then
        (evs6 ++ [.proveAgg b acc true side aggPV true, .verifyAgg newAcc false],
          .error .verifyAggFailed)
      else
        (evs6 ++ [.proveAgg b acc true side aggPV true, .verifyAgg newAcc true],
          .ok (newAcc, prove_aggregation_pv aggPV))

/-- The main loop of aggregate_proof_all, as a recursion on the number of
remaining iterations; the pair index advances by two per iteration and the
accumulator flag is true from the first combination on (is_agg = true is set
inside the loop body, zkmips.rs line 398). -/
def aggLoop (o : Oracle) (acc : Proof) (accPV : PublicValues) (b : Bool) (s1 : Nat) :
    Nat → List Event × Except RunError (Proof × PublicValues)
  | 0 => ([], .ok (acc, accPV))
  | k + 1 =>
    match loopIter o acc accPV b s1 with
    | (evs, .error e) => (evs, .error e)
    | (evs, .ok (acc2, accPV2)) =>
      let rest := aggLoop o acc2 accPV2 true (s1 + 2) k
      (evs ++ rest.1, rest.2)

/-- The even-count prelude of aggregate_proof_all (zkmips.rs lines 307-339):
prove and verify segment 1, combine segment 0's root proof with it (both kind
flags false) and verify the first aggregate. -/
def evenPre (o : Oracle) : List Event × Except RunError (Proof × PublicValues) :=
  if !o.proveRootOk 1 then ([.proveRoot 1 false], .error (.proveRootFailed 1))
  else if !o.verifyRootOk 1 then
    ([.proveRoot 1 true, .verifyRoot 1 false], .error (.verifyRootFailed 1))
  else
    let aggPV : PublicValues :=
      ⟨(o.rootPV 0).roots_before, (o.rootPV 1).roots_after, (o.rootPV 1).userdata⟩
    let firstAgg : Proof := .agg (.root 0) (.root 1)
    if !o.proveAggOk (.root 0) (.root 1) then
      ([.proveRoot 1 true, .verifyRoot 1 true,
        .proveAgg false (.root 0) false (.root 1) aggPV false], .error .proveAggFailed)
    else if !o.verifyAggOk firstAgg then
      ([.proveRoot 1 true, .verifyRoot 1 true,
        .proveAgg false (.root 0) false (.root 1) aggPV true, .verifyAgg firstAgg false],
        .error .verifyAggFailed)
    else
      ([.proveRoot 1 true, .verifyRoot 1 true,
        .proveAgg false (.root 0) false (.root 1) aggPV true, .verifyAgg firstAgg true],
        .ok (firstAgg, prove_aggregation_pv aggPV))

/-- The tail of aggregate_proof_all (zkmips.rs lines 404-425): prove the block
proof from the final accumulator (a failure here propagates immediately), call
verify_block and capture its result, then perform the wrapping steps
unconditionally, and finally return the captured verification result. -/
def blockAndWrap (o : Oracle) (fp : Proof) (fpv : PublicValues) :
    List Event × Except RunError (Proof × PublicValues) :=
  if !o.proveBlockOk then ([.proveBlock fp fpv false], .error .proveBlockFailed)
  else
    ([.proveBlock fp fpv true, .verifyBlock o.verifyBlockOk, .wrap],
      if o.verifyBlockOk then .ok (fp, fpv) else .error .verifyBlockFailed)

/-- aggregate_proof_all (zkmips.rs lines 265-426) over n segments: reject
n < 2 before building any circuit; prove and verify segment 0's root proof
(the initial accumulator); when n is even, immediately fold in segment 1 via
evenPre and start the main loop at segment 2, otherwise start it at segment 1;
run the main loop over the remaining pairs; then prove the block proof, verify
it, wrap, and return.  The ok value is the final accumulator proof and the
public values passed to prove_block. -/
def aggregate_proof_all (n : Nat) (o : Oracle) :
    List Event × Except RunError (Proof × PublicValues) :=
  if n < 2 then ([], .error .segCountTooSmall)
  else if !o.proveRootOk 0 then
    ([.buildCircuits, .proveRoot 0 false], .error (.proveRootFailed 0))
  else if !o.verifyRootOk 0 then
    ([.buildCircuits, .proveRoot 0 true, .verifyRoot 0 false], .error (.verifyRootFailed 0))
  else
    let evs0 : List Event := [.buildCircuits, .proveRoot 0 true, .verifyRoot 0 true]
    let pre : List Event × Except RunError (Proof × PublicValues × Bool × Nat) :=
      if n % 2 = 0 then
        match evenPre o with
        | (evs, .error e) => (evs, .error e)
        | (evs, .ok (p, pvv)) => (evs, .ok (p, pvv, true, 2))
      else ([], .ok (.root 0, o.rootPV 0, false, 1))
    match pre with
    | (evs, .error e) => (evs0 ++ evs, .error e)
    | (evs, .ok (acc, accPV, b, baseSeg)) =>
      match aggLoop o acc accPV b baseSeg ((n - baseSeg) / 2) with
      | (evs2, .error e) => (evs0 ++ evs ++ evs2, .error e)
      | (evs2, .ok (fp, fpv)) =>
        let bw := blockAndWrap o fp fpv
        (evs0 ++ evs ++ evs2 ++ bw.1, bw.2)

/-- aggregate_proof (zkmips.rs lines 198-263), the two-segment CLI path: prove
and verify both root proofs, merge their public values, aggregate (both kind
flags false), verify the aggregate, prove the block proof and return the
result of verify_block (no wrapping on this path). -/
def aggregate_proof (o : Oracle) : List Event × Except RunError (Proof × PublicValues) :=
  if !o.proveRootOk 0 then
    ([.buildCircuits, .proveRoot 0 false], .error (.proveRootFailed 0))
  else if !o.verifyRootOk 0 then
    ([.buildCircuits, .proveRoot 0 true, .verifyRoot 0 false], .error (.verifyRootFailed 0))
  else if !o.proveRootOk 1 then
    ([.buildCircuits, .proveRoot 0 true, .verifyRoot 0 true, .proveRoot 1 false],
      .error (.proveRootFailed 1))
  else if !o.verifyRootOk 1 then
    ([.buildCircuits, .proveRoot 0 true, .verifyRoot 0 true, .proveRoot 1 true,
      .verifyRoot 1 false], .error (.verifyRootFailed 1))
  else
    let agg_pv : PublicValues :=
      ⟨(o.rootPV 0).roots_before, (o.rootPV 1).roots_after, (o.rootPV 1).userdata⟩
    let aggP : Proof := .agg (.root 0) (.root 1)
    let evs4 : List Event :=
      [.buildCircuits, .proveRoot 0 true, .verifyRoot 0 true, .proveRoot 1 true,
        .verifyRoot 1 true]
    if !o.proveAggOk (.root 0) (.root 1) then
      (evs4 ++ [.proveAgg false (.root 0) false (.root 1) agg_pv false],
        .error .proveAggFailed)
    else if !o.verifyAggOk aggP then
      (evs4 ++ [.proveAgg false (.root 0) false (.root 1) agg_pv true, .verifyAgg aggP false],
        .error .verifyAggFailed)
    else
      let updated := prove_aggregation_pv agg_pv
      let evs6 : List Event := evs4 ++
        [.proveAgg false (.root 0) false (.root 1) agg_pv true, .verifyAgg aggP true]
      if !o.proveBlockOk then
        (evs6 ++ [.proveBlock aggP updated false], .error .proveBlockFailed)
      else
        (evs6 ++ [.proveBlock aggP updated true, .verifyBlock o.verifyBlockOk],
          if o.verifyBlockOk then .ok (aggP, updated) else .error .verifyBlockFailed)

/-- prove_groth16 (zkmips.rs lines 170-172): the body is a single unimplemented
abort, so the call performs no external work and never returns normally. -/
def prove_groth16 : List Event × Except RunError (Proof × PublicValues) :=
  ([], .error .unimplemented)

/-- The segment indices proved as root proofs in a trace, in execution
order. -/
def provedSegs (evs : List Event) : List Nat :=
  evs.filterMap fun e =>
    match e with
    | .proveRoot s _ => some s
    | _ => none

/-- The pairs of segments combined directly from two root proofs (both kind
flags false) in a trace, in execution order: the first aggregate of the even
path and the side aggregates of the main loop. -/
def sidePairs (evs : List Event) : List (Nat × Nat) :=
  evs.filterMap fun e =>
    match e with
    | .proveAgg false (.root a) false (.root b) _ _ => some (a, b)
    | _ => none

/-- The left kind flags of the combinations whose right flag is true, i.e. of
the accumulator-with-side-aggregate combinations of the main loop, in
execution order. -/
def nestedLeftFlags (evs : List Event) : List Bool :=
  evs.filterMap fun e =>
    match e with
    | .proveAgg la _ true _ _ _ => some la
    | _ => none

/-- Whether the kind flags of an aggregation call are well formed: a
combination of two root proofs carries false on both sides, and a combination
whose right operand is an aggregate carries true on the right and the left
operand's actual kind on the left. -/
def aggEventShape : Event → Bool
  | .proveAgg false (.root _) false (.root _) _ _ => true
  | .proveAgg la l true (.agg _ _) _ _ => la == l.isAgg
  | .proveAgg _ _ _ _ _ _ => false
  | _ => true

/-- Modelled from the spec: the public values attested by a proof, under the
pass-through contract of §4.3 for the external prove_aggregation (not under
src/) — an aggregate's values are its operands' values merged with
roots_before from the left and roots_after and userdata from the right. -/
def proofPV (pv : Nat → PublicValues) : Proof → PublicValues
  | .root s => pv s
  | .agg l r =>
    ⟨(proofPV pv l).roots_before, (proofPV pv r).roots_after, (proofPV pv r).userdata⟩

/-- Whether an aggregation call's merged public values are exactly
roots_before from the left proof, roots_after and userdata from the right
proof. -/
def mergedFaithful (pv : Nat → PublicValues) : Event → Bool
  | .proveAgg _ l _ r merged _ =>
    decide (merged =
      ⟨(proofPV pv l).roots_before, (proofPV pv r).roots_after, (proofPV pv r).userdata⟩)
  | _ => true

/-- Whether the external call recorded by an event succeeded. -/
def eventOk : Event → Bool
  | .proveRoot _ ok => ok
  | .verifyRoot _ ok => ok
  | .proveAgg _ _ _ _ _ ok => ok
  | .verifyAgg _ ok => ok
  | .proveBlock _ _ ok => ok
  | .verifyBlock ok => ok
  | _ => true

/-- Whether an event is the block-verification call. -/
def isVerifyBlockEvent : Event → Bool
  | .verifyBlock _ => true
  | _ => false

/-- Whether a trace stops at the first failed call, with the single exception
of block verification, whose failure is followed by exactly the wrapping
step. -/
def failureAborts : List Event → Bool
  | [] => true
  | e :: rest =>
    if eventOk e then failureAborts rest
    else if isVerifyBlockEvent e then decide (rest = [Event.wrap])
    else decide (rest = [])

/-- Whether the inputs of an event are covered by the verified set: every
aggregate fed to an aggregation call or to the block prover must have been
verified already. -/
def aggInputsVerified (v : List Proof) : Event → Bool
  | .proveAgg _ l _ r _ _ =>
    (!l.isAgg || decide (l ∈ v)) && (!r.isAgg || decide (r ∈ v))
  | .proveBlock p _ _ => !p.isAgg || decide (p ∈ v)
  | _ => true

/-- The verified set after processing an event: a successful aggregate
verification adds its proof. -/
def postVerified (v : List Proof) : Event → List Proof
  | .verifyAgg p true => p :: v
  | _ => v

/-- Whether a trace uses every aggregate only after a successful verification
of it, scanning left to right with the given initially verified set. -/
def checkAggDiscipline : List Event → List Proof → Bool
  | [], _ => true
  | e :: rest, v => aggInputsVerified v e && checkAggDiscipline rest (postVerified v e)

/-- The verified set accumulated over a whole trace. -/
def verifiedAfter (evs : List Event) (v : List Proof) : List Proof :=
  evs.foldl postVerified v

/-- Whether a run result is the below-minimum segment-count error. -/
def isSegCountErr : Except RunError (Proof × PublicValues) → Bool
  | .error .segCountTooSmall => true
  | _ => false

/-- The accumulator proof after k further main-loop iterations whose first
pair starts at segment s1. -/
def foldProof (acc : Proof) (s1 : Nat) : Nat → Proof
  | 0 => acc
  | k + 1 => foldProof (.agg acc (.agg (.root s1) (.root (s1 + 1)))) (s1 + 2) k

/-- The accumulator public values after k further main-loop iterations whose
first pair starts at segment s1. -/
def foldPV (pv : Nat → PublicValues) (accPV : PublicValues) (s1 : Nat) : Nat → PublicValues
  | 0 => accPV
  | k + 1 =>
    foldPV pv ⟨accPV.roots_before, (pv (s1 + 1)).roots_after, (pv (s1 + 1)).userdata⟩
      (s1 + 2) k

/-- The number of main-loop iterations aggregate_proof_all performs for n
segments. -/
def loopIters (n : Nat) : Nat := if n % 2 = 0 then (n - 2) / 2 else (n - 1) / 2

/-- The trace produced by k successful main-loop iterations starting from the
given accumulator state. -/
def loopTrace (pv : Nat → PublicValues) (acc : Proof) (accPV : PublicValues) (b : Bool)
    (s1 : Nat) : Nat → List Event
  | 0 => []
  | k + 1 =>
    [.proveRoot s1 true, .verifyRoot s1 true, .proveRoot (s1 + 1) true,
      .verifyRoot (s1 + 1) true,
      .proveAgg false (.root s1) false (.root (s1 + 1))
        ⟨(pv s1).roots_before, (pv (s1 + 1)).roots_after, (pv (s1 + 1)).userdata⟩ true,
      .verifyAgg (.agg (.root s1) (.root (s1 + 1))) true,
      .proveAgg b acc true (.agg (.root s1) (.root (s1 + 1)))
        ⟨accPV.roots_before, (pv (s1 + 1)).roots_after, (pv (s1 + 1)).userdata⟩ true,
      .verifyAgg (.agg acc (.agg (.root s1) (.root (s1 + 1)))) true] ++
    loopTrace pv (.agg acc (.agg (.root s1) (.root (s1 + 1))))
      ⟨accPV.roots_before, (pv (s1 + 1)).roots_after, (pv (s1 + 1)).userdata⟩ true
      (s1 + 2) k

/-- The CLI subcommands dispatched by main (zkmips.rs lines 174-196). -/
inductive CliAction where
  | splitElf
  | proveSeg
  | aggregateProofCmd
  | aggregateProofAllCmd
  | proveGroth16
  | bench
  | helpExit
  deriving DecidableEq, Repr

/-- The dispatch of main (zkmips.rs lines 184-195): fewer than two arguments,
or an unknown subcommand, print the help text and exit. -/
def dispatch (args : List String) : CliAction :=
  if args.length < 2 then .helpExit
  else
    match args.getD 1 "" with
    | "split" => .splitElf
    | "prove" => .proveSeg
    | "aggregate_proof" => .aggregateProofCmd
    | "aggregate_proof_all" => .aggregateProofAllCmd
    | "prove_groth16" => .proveGroth16
    | "bench" => .bench
    | _ => .helpExit

/-! ### Unfolding of the pipeline on an all-success oracle -/

theorem loopIter_ofPV (pv : Nat → PublicValues) (acc : Proof) (accPV : PublicValues)
    (b : Bool) (s1 : Nat) :
    loopIter (Oracle.ofPV pv) acc accPV b s1 =
      ([.proveRoot s1 true, .verifyRoot s1 true, .proveRoot (s1 + 1) true,
        .verifyRoot (s1 + 1) true,
        .proveAgg false (.root s1) false (.root (s1 + 1))
          ⟨(pv s1).roots_before, (pv (s1 + 1)).roots_after, (pv (s1 + 1)).userdata⟩ true,
        .verifyAgg (.agg (.root s1) (.root (s1 + 1))) true,
        .proveAgg b acc true (.agg (.root s1) (.root (s1 + 1)))
          ⟨accPV.roots_before, (pv (s1 + 1)).roots_after, (pv (s1 + 1)).userdata⟩ true,
        .verifyAgg (.agg acc (.agg (.root s1) (.root (s1 + 1)))) true],
       .ok (.agg acc (.agg (.root s1) (.root (s1 + 1))),
        ⟨accPV.roots_before, (pv (s1 + 1)).roots_after, (pv (s1 + 1)).userdata⟩)) := rfl

theorem aggLoop_ofPV (pv : Nat → PublicValues) (k : Nat) :
    ∀ (acc : Proof) (accPV : PublicValues) (b : Bool) (s1 : Nat),
      aggLoop (Oracle.ofPV pv) acc accPV b s1 k =
        (loopTrace pv acc accPV b s1 k, .ok (foldProof acc s1 k, foldPV pv accPV s1 k)) := by
  induction k with
  | zero => intro acc accPV b s1; rfl
  | succ k ih =>
    intro acc accPV b s1
    simp only [aggLoop, loopIter_ofPV, loopTrace, foldProof, foldPV, ih]

theorem ofPV_rootPV (pv : Nat → PublicValues) : (Oracle.ofPV pv).rootPV = pv := rfl

theorem ofPV_proveRootOk (pv : Nat → PublicValues) (s : Nat) :
    (Oracle.ofPV pv).proveRootOk s = true := rfl

theorem ofPV_verifyRootOk (pv : Nat → PublicValues) (s : Nat) :
    (Oracle.ofPV pv).verifyRootOk s = true := rfl

theorem ofPV_proveAggOk (pv : Nat → PublicValues) (l r : Proof) :
    (Oracle.ofPV pv).proveAggOk l r = true := rfl

theorem ofPV_verifyAggOk (pv : Nat → PublicValues) (p : Proof) :
    (Oracle.ofPV pv).verifyAggOk p = true := rfl

theorem ofPV_proveBlockOk (pv : Nat → PublicValues) :
    (Oracle.ofPV pv).proveBlockOk = true := rfl

theorem ofPV_verifyBlockOk (pv : Nat → PublicValues) :
    (Oracle.ofPV pv).verifyBlockOk = true := rfl

theorem agg_all_ofPV_odd (pv : Nat → PublicValues) (n : Nat) (h2 : 2 ≤ n)
    (ho : n % 2 = 1) :
    aggregate_proof_all n (Oracle.ofPV pv) =
      ([Event.buildCircuits, .proveRoot 0 true, .verifyRoot 0 true] ++
        loopTrace pv (.root 0) (pv 0) false 1 ((n - 1) / 2) ++
        [.proveBlock (foldProof (.root 0) 1 ((n - 1) / 2)) (foldPV pv (pv 0) 1 ((n - 1) / 2))
            true, .verifyBlock true, .wrap],
       .ok (foldProof (.root 0) 1 ((n - 1) / 2), foldPV pv (pv 0) 1 ((n - 1) / 2))) := by
  have hn : ¬ n < 2 := by omega
  have ho' : ¬ n % 2 = 0 := by omega
  simp [aggregate_proof_all, hn, ho', aggLoop_ofPV, blockAndWrap, ofPV_rootPV,
    ofPV_proveRootOk, ofPV_verifyRootOk, ofPV_proveBlockOk, ofPV_verifyBlockOk]

theorem agg_all_ofPV_even (pv : Nat → PublicValues) (n : Nat) (h2 : 2 ≤ n)
    (he : n % 2 = 0) :
    aggregate_proof_all n (Oracle.ofPV pv) =
      ([Event.buildCircuits, .proveRoot 0 true, .verifyRoot 0 true, .proveRoot 1 true,
        .verifyRoot 1 true,
        .proveAgg false (.root 0) false (.root 1)
          ⟨(pv 0).roots_before, (pv 1).roots_after, (pv 1).userdata⟩ true,
        .verifyAgg (.agg (.root 0) (.root 1)) true] ++
        loopTrace pv (.agg (.root 0) (.root 1))
          ⟨(pv 0).roots_before, (pv 1).roots_after, (pv 1).userdata⟩ true 2 ((n - 2) / 2) ++
        [.proveBlock (foldProof (.agg (.root 0) (.root 1)) 2 ((n - 2) / 2))
            (foldPV pv ⟨(pv 0).roots_before, (pv 1).roots_after, (pv 1).userdata⟩ 2
              ((n - 2) / 2)) true, .verifyBlock true, .wrap],
       .ok (foldProof (.agg (.root 0) (.root 1)) 2 ((n - 2) / 2),
        foldPV pv ⟨(pv 0).roots_before, (pv 1).roots_after, (pv 1).userdata⟩ 2
          ((n - 2) / 2))) := by
  have hn : ¬ n < 2 := by omega
  simp [aggregate_proof_all, hn, he, aggLoop_ofPV, blockAndWrap, evenPre,
    prove_aggregation_pv, ofPV_rootPV, ofPV_proveRootOk, ofPV_verifyRootOk,
    ofPV_proveAggOk, ofPV_verifyAggOk, ofPV_proveBlockOk, ofPV_verifyBlockOk]

/-! ### Properties of the loop trace and of the folded accumulator -/

theorem foldPV_roots_before (pv : Nat → PublicValues) :
    ∀ (k : Nat) (accPV : PublicValues) (s1 : Nat),
      (foldPV pv accPV s1 k).roots_before = accPV.roots_before := by
  intro k
  induction k with
  | zero => intro accPV s1; rfl
  | succ k ih => intro accPV s1; rw [foldPV, ih]

theorem foldPV_roots_after (pv : Nat → PublicValues) :
    ∀ (k : Nat) (accPV : PublicValues) (s1 : Nat),
      (foldPV pv accPV s1 (k + 1)).roots_after = (pv (s1 + 2 * k + 1)).roots_after := by
  intro k
  induction k with
  | zero => intro accPV s1; rfl
  | succ k ih =>
    intro accPV s1
    rw [foldPV, ih]
    congr 2
    omega

theorem foldPV_userdata (pv : Nat → PublicValues) :
    ∀ (k : Nat) (accPV : PublicValues) (s1 : Nat),
      (foldPV pv accPV s1 (k + 1)).userdata = (pv (s1 + 2 * k + 1)).userdata := by
  intro k
  induction k with
  | zero => intro accPV s1; rfl
  | succ k ih =>
    intro accPV s1
    rw [foldPV, ih]
    congr 2
    omega

theorem range_map_shift (s1 k : Nat) :
    (List.range (2 * (k + 1))).map (fun i => s1 + i) =
      s1 :: (s1 + 1) :: (List.range (2 * k)).map (fun i => s1 + 2 + i) := by
  have h2 : 2 * (k + 1) = 2 * k + 1 + 1 := by ring
  rw [h2, List.range_succ_eq_map, List.range_succ_eq_map]
  simp [List.map_map]
  intro a _
  omega

theorem range_pairs_shift (s1 k : Nat) :
    (List.range (k + 1)).map (fun i => (s1 + 2 * i, s1 + 2 * i + 1)) =
      (s1, s1 + 1) :: (List.range k).map (fun i => (s1 + 2 + 2 * i, s1 + 2 + 2 * i + 1)) := by
  rw [List.range_succ_eq_map]
  simp [List.map_map]
  intro a _
  omega

theorem provedSegs_loopTrace (pv : Nat → PublicValues) :
    ∀ (k : Nat) (acc : Proof) (accPV : PublicValues) (b : Bool) (s1 : Nat),
      provedSegs (loopTrace pv acc accPV b s1 k) =
        (List.range (2 * k)).map (fun i => s1 + i) := by
  intro k
  induction k with
  | zero => intro acc accPV b s1; simp [loopTrace, provedSegs]
  | succ k ih =>
    intro acc accPV b s1
    rw [loopTrace, range_map_shift]
    simp only [provedSegs, List.filterMap_append, List.filterMap_cons] at *
    rw [ih]
    rfl

theorem sidePairs_loopTrace (pv : Nat → PublicValues) :
    ∀ (k : Nat) (acc : Proof) (accPV : PublicValues) (b : Bool) (s1 : Nat),
      sidePairs (loopTrace pv acc accPV b s1 k) =
        (List.range k).map (fun i => (s1 + 2 * i, s1 + 2 * i + 1)) := by
  intro k
  induction k with
  | zero => intro acc accPV b s1; simp [loopTrace, sidePairs]
  | succ k ih =>
    intro acc accPV b s1
    rw [loopTrace, range_pairs_shift]
    simp only [sidePairs, List.filterMap_append, List.filterMap_cons] at *
    rw [ih]
    rfl

theorem nestedLeftFlags_loopTrace (pv : Nat → PublicValues) :
    ∀ (k : Nat) (acc : Proof) (accPV : PublicValues) (b : Bool) (s1 : Nat),
      nestedLeftFlags (loopTrace pv acc accPV b s1 k) =
        (match k with
         | 0 => []
         | k' + 1 => b :: List.replicate k' true) := by
  intro k
  induction k with
  | zero => intro acc accPV b s1; simp [loopTrace, nestedLeftFlags]
  | succ k ih =>
    intro acc accPV b s1
    rw [loopTrace]
    simp only [nestedLeftFlags, List.filterMap_append] at *
    rw [ih]
    cases k with
    | zero => simp [List.filterMap_cons]
    | succ k' => simp [List.filterMap_cons, List.replicate_succ]

theorem aggEventShape_loopTrace (pv : Nat → PublicValues) :
    ∀ (k : Nat) (acc : Proof) (accPV : PublicValues) (b : Bool) (s1 : Nat),
      b = acc.isAgg →
      (loopTrace pv acc accPV b s1 k).all aggEventShape = true := by
  intro k
  induction k with
  | zero => intro acc accPV b s1 _; rfl
  | succ k ih =>
    intro acc accPV b s1 hb
    rw [loopTrace]
    simp only [List.all_append, Bool.and_eq_true]
    constructor
    · simp [aggEventShape, hb]
    · exact ih _ _ true _ rfl

theorem mergedFaithful_loopTrace (pv : Nat → PublicValues) :
    ∀ (k : Nat) (acc : Proof) (accPV : PublicValues) (b : Bool) (s1 : Nat),
      accPV = proofPV pv acc →
      (loopTrace pv acc accPV b s1 k).all (mergedFaithful pv) = true := by
  intro k
  induction k with
  | zero => intro acc accPV b s1 _; rfl
  | succ k ih =>
    intro acc accPV b s1 hpv
    rw [loopTrace]
    simp only [List.all_append, Bool.and_eq_true]
    constructor
    · simp [mergedFaithful, proofPV, hpv]
    · exact ih _ _ true _ (by simp [proofPV, hpv])

theorem foldPV_proofPV (pv : Nat → PublicValues) :
    ∀ (k : Nat) (acc : Proof) (accPV : PublicValues) (s1 : Nat),
      accPV = proofPV pv acc →
      foldPV pv accPV s1 k = proofPV pv (foldProof acc s1 k) := by
  intro k
  induction k with
  | zero => intro acc accPV s1 hpv; exact hpv
  | succ k ih =>
    intro acc accPV s1 hpv
    rw [foldPV, foldProof]
    exact ih _ _ _ (by simp [proofPV, hpv])

/-! ### Verification discipline over a trace -/

theorem verifiedAfter_append (a b : List Event) (v : List Proof) :
    verifiedAfter (a ++ b) v = verifiedAfter b (verifiedAfter a v) := by
  simp [verifiedAfter, List.foldl_append]

theorem checkAggDiscipline_append (a b : List Event) :
    ∀ v, checkAggDiscipline (a ++ b) v =
      (checkAggDiscipline a v && checkAggDiscipline b (verifiedAfter a v)) := by
  induction a with
  | nil => intro v; simp [checkAggDiscipline, verifiedAfter]
  | cons e a ih =>
    intro v
    simp [checkAggDiscipline, verifiedAfter, ih, Bool.and_assoc]

theorem discipline_loopTrace (pv : Nat → PublicValues) :
    ∀ (k : Nat) (acc : Proof) (accPV : PublicValues) (b : Bool) (s1 : Nat)
      (v : List Proof), (acc.isAgg = true → acc ∈ v) →
      checkAggDiscipline (loopTrace pv acc accPV b s1 k) v = true := by
  intro k
  induction k with
  | zero => intro acc accPV b s1 v _; rfl
  | succ k ih =>
    intro acc accPV b s1 v hacc
    rw [loopTrace]
    rw [checkAggDiscipline_append, Bool.and_eq_true]
    refine ⟨?_, ?_⟩
    · cases acc with
      | root s => simp [checkAggDiscipline, aggInputsVerified, postVerified, Proof.isAgg]
      | agg l r =>
        have hmem : Proof.agg l r ∈ v := hacc rfl
        simp [checkAggDiscipline, aggInputsVerified, postVerified, Proof.isAgg, hmem]
    · have hv : verifiedAfter
          [Event.proveRoot s1 true, .verifyRoot s1 true, .proveRoot (s1 + 1) true,
            .verifyRoot (s1 + 1) true,
            .proveAgg false (.root s1) false (.root (s1 + 1))
              ⟨(pv s1).roots_before, (pv (s1 + 1)).roots_after, (pv (s1 + 1)).userdata⟩ true,
            .verifyAgg (.agg (.root s1) (.root (s1 + 1))) true,
            .proveAgg b acc true (.agg (.root s1) (.root (s1 + 1)))
              ⟨accPV.roots_before, (pv (s1 + 1)).roots_after, (pv (s1 + 1)).userdata⟩ true,
            .verifyAgg (.agg acc (.agg (.root s1) (.root (s1 + 1)))) true] v =
          (Proof.agg acc (.agg (.root s1) (.root (s1 + 1)))) ::
            (Proof.agg (.root s1) (.root (s1 + 1))) :: v := by
        simp [verifiedAfter, postVerified]
      rw [hv]
      exact ih _ _ true _ _ (fun _ => List.mem_cons_self _ _)

theorem mem_verifiedAfter_loopTrace (pv : Nat → PublicValues) :
    ∀ (k : Nat) (acc : Proof) (accPV : PublicValues) (b : Bool) (s1 : Nat)
      (v : List Proof), (acc ∈ v ∨ 1 ≤ k) →
      foldProof acc s1 k ∈ verifiedAfter (loopTrace pv acc accPV b s1 k) v := by
  intro k
  induction k with
  | zero =>
    intro acc accPV b s1 v h
    rcases h with h | h
    · exact h
    · omega
  | succ k ih =>
    intro acc accPV b s1 v h
    rw [loopTrace, foldProof, verifiedAfter_append]
    have hv : verifiedAfter
        [Event.proveRoot s1 true, .verifyRoot s1 true, .proveRoot (s1 + 1) true,
          .verifyRoot (s1 + 1) true,
          .proveAgg false (.root s1) false (.root (s1 + 1))
            ⟨(pv s1).roots_before, (pv (s1 + 1)).roots_after, (pv (s1 + 1)).userdata⟩ true,
          .verifyAgg (.agg (.root s1) (.root (s1 + 1))) true,
          .proveAgg b acc true (.agg (.root s1) (.root (s1 + 1)))
            ⟨accPV.roots_before, (pv (s1 + 1)).roots_after, (pv (s1 + 1)).userdata⟩ true,
          .verifyAgg (.agg acc (.agg (.root s1) (.root (s1 + 1)))) true] v =
        (Proof.agg acc (.agg (.root s1) (.root (s1 + 1)))) ::
          (Proof.agg (.root s1) (.root (s1 + 1))) :: v := by
      simp [verifiedAfter, postVerified]
    rw [hv]
    exact ih _ _ true _ _ (Or.inl (List.mem_cons_self _ _))

/-! ### Failure propagation over an arbitrary oracle -/

/-- Combined abort condition for a pipeline fragment: a successful fragment
performed only successful calls, a failed fragment stops at the failed
call (with the block-verification exception encoded in failureAborts). -/
def abortsCleanly (p : List Event × Except RunError (Proof × PublicValues)) : Bool :=
  match p.2 with
  | .ok _ => p.1.all eventOk
  | .error _ => failureAborts p.1

theorem all_eventOk_failureAborts :
    ∀ l : List Event, l.all eventOk = true → failureAborts l = true := by
  intro l
  induction l with
  | nil => intro _; rfl
  | cons e rest ih =>
    intro h
    rw [List.all_cons, Bool.and_eq_true] at h
    rw [failureAborts, if_pos h.1]
    exact ih h.2

theorem failureAborts_append (a b : List Event) :
    a.all eventOk = true → failureAborts (a ++ b) = failureAborts b := by
  induction a with
  | nil => intro _; rfl
  | cons e rest ih =>
    intro h
    rw [List.all_cons, Bool.and_eq_true] at h
    rw [List.cons_append, failureAborts, if_pos h.1]
    exact ih h.2

theorem loopIter_aborts (o : Oracle) (acc : Proof) (accPV : PublicValues) (b : Bool)
    (s1 : Nat) : abortsCleanly (loopIter o acc accPV b s1) = true := by
  unfold loopIter
  cases h1 : o.proveRootOk s1 <;> cases h2 : o.verifyRootOk s1 <;>
    cases h3 : o.proveRootOk (s1 + 1) <;> cases h4 : o.verifyRootOk (s1 + 1) <;>
    cases h5 : o.proveAggOk (.root s1) (.root (s1 + 1)) <;>
    cases h6 : o.verifyAggOk (.agg (.root s1) (.root (s1 + 1))) <;>
    cases h7 : o.proveAggOk acc (.agg (.root s1) (.root (s1 + 1))) <;>
    cases h8 : o.verifyAggOk (.agg acc (.agg (.root s1) (.root (s1 + 1)))) <;>
    simp [h1, h2, h3, h4, h5, h6, h7, h8, abortsCleanly, failureAborts, eventOk,
      isVerifyBlockEvent]

theorem loopIter_notSeg (o : Oracle) (acc : Proof) (accPV : PublicValues) (b : Bool)
    (s1 : Nat) : isSegCountErr (loopIter o acc accPV b s1).2 = false := by
  unfold loopIter
  cases h1 : o.proveRootOk s1 <;> cases h2 : o.verifyRootOk s1 <;>
    cases h3 : o.proveRootOk (s1 + 1) <;> cases h4 : o.verifyRootOk (s1 + 1) <;>
    cases h5 : o.proveAggOk (.root s1) (.root (s1 + 1)) <;>
    cases h6 : o.verifyAggOk (.agg (.root s1) (.root (s1 + 1))) <;>
    cases h7 : o.proveAggOk acc (.agg (.root s1) (.root (s1 + 1))) <;>
    cases h8 : o.verifyAggOk (.agg acc (.agg (.root s1) (.root (s1 + 1)))) <;>
    simp [h1, h2, h3, h4, h5, h6, h7, h8, isSegCountErr]

theorem aggLoop_aborts (o : Oracle) :
    ∀ (k : Nat) (acc : Proof) (accPV : PublicValues) (b : Bool) (s1 : Nat),
      abortsCleanly (aggLoop o acc accPV b s1 k) = true := by
  intro k
  induction k with
  | zero => intro acc accPV b s1; rfl
  | succ k ih =>
    intro acc accPV b s1
    rw [aggLoop]
    have hab := loopIter_aborts o acc accPV b s1
    rcases hLI : loopIter o acc accPV b s1 with ⟨evs, r⟩
    rw [hLI] at hab
    cases r with
    | error e => simpa [abortsCleanly] using hab
    | ok x =>
      obtain ⟨acc2, accPV2⟩ := x
      have hrest := ih acc2 accPV2 true (s1 + 2)
      rcases hR : aggLoop o acc2 accPV2 true (s1 + 2) k with ⟨evs2, r2⟩
      rw [hR] at hrest
      dsimp only
      rw [hR]
      simp only [abortsCleanly] at hab
      cases r2 with
      | ok y =>
        simp only [abortsCleanly] at hrest ⊢
        simp [List.all_append, hab, hrest]
      | error e =>
        simp only [abortsCleanly] at hrest ⊢
        rw [failureAborts_append _ _ hab]
        exact hrest

theorem aggLoop_notSeg (o : Oracle) :
    ∀ (k : Nat) (acc : Proof) (accPV : PublicValues) (b : Bool) (s1 : Nat),
      isSegCountErr (aggLoop o acc accPV b s1 k).2 = false := by
  intro k
  induction k with
  | zero => intro acc accPV b s1; rfl
  | succ k ih =>
    intro acc accPV b s1
    rw [aggLoop]
    have hns := loopIter_notSeg o acc accPV b s1
    rcases hLI : loopIter o acc accPV b s1 with ⟨evs, r⟩
    rw [hLI] at hns
    cases r with
    | error e => exact hns
    | ok x =>
      obtain ⟨acc2, accPV2⟩ := x
      exact ih acc2 accPV2 true (s1 + 2)

theorem evenPre_aborts (o : Oracle) : abortsCleanly (evenPre o) = true := by
  unfold evenPre
  cases h1 : o.proveRootOk 1 <;> cases h2 : o.verifyRootOk 1 <;>
    cases h3 : o.proveAggOk (.root 0) (.root 1) <;>
    cases h4 : o.verifyAggOk (.agg (.root 0) (.root 1)) <;>
    simp [h1, h2, h3, h4, abortsCleanly, failureAborts, eventOk, isVerifyBlockEvent]

theorem evenPre_notSeg (o : Oracle) : isSegCountErr (evenPre o).2 = false := by
  unfold evenPre
  cases h1 : o.proveRootOk 1 <;> cases h2 : o.verifyRootOk 1 <;>
    cases h3 : o.proveAggOk (.root 0) (.root 1) <;>
    cases h4 : o.verifyAggOk (.agg (.root 0) (.root 1)) <;>
    simp [h1, h2, h3, h4, isSegCountErr]

theorem blockAndWrap_aborts (o : Oracle) (fp : Proof) (fpv : PublicValues) :
    failureAborts (blockAndWrap o fp fpv).1 = true := by
  unfold blockAndWrap
  cases hb : o.proveBlockOk with
  | false => rfl
  | true =>
    cases hv : o.verifyBlockOk with
    | false => simp [hb, hv, failureAborts, eventOk, isVerifyBlockEvent]
    | true => simp [hb, hv, failureAborts, eventOk, isVerifyBlockEvent]

theorem blockAndWrap_notSeg (o : Oracle) (fp : Proof) (fpv : PublicValues) :
    isSegCountErr (blockAndWrap o fp fpv).2 = false := by
  unfold blockAndWrap
  cases h1 : o.proveBlockOk <;> cases h2 : o.verifyBlockOk <;>
    simp [h1, h2, isSegCountErr]

theorem blockAndWrap_abortsCleanly (o : Oracle) (fp : Proof) (fpv : PublicValues) :
    abortsCleanly (blockAndWrap o fp fpv) = true := by
  unfold blockAndWrap
  cases h1 : o.proveBlockOk <;> cases h2 : o.verifyBlockOk <;>
    simp [h1, h2, abortsCleanly, failureAborts, eventOk, isVerifyBlockEvent, List.all]

theorem agg_all_aborts (n : Nat) (o : Oracle) :
    abortsCleanly (aggregate_proof_all n o) = true := by
  unfold aggregate_proof_all
  by_cases hn : n < 2
  · simp [hn, abortsCleanly, failureAborts]
  rw [if_neg hn]
  cases h1 : o.proveRootOk 0 with
  | false => simp [h1, abortsCleanly, failureAborts, eventOk, isVerifyBlockEvent]
  | true =>
  cases h2 : o.verifyRootOk 0 with
  | false => simp [h1, h2, abortsCleanly, failureAborts, eventOk, isVerifyBlockEvent]
  | true =>
  rw [if_neg (by decide), if_neg (by decide)]
  dsimp only
  by_cases hp : n % 2 = 0
  · rw [if_pos hp]
    have habP := evenPre_aborts o
    rcases hP : evenPre o with ⟨evsP, rP⟩
    rw [hP] at habP
    cases rP with
    | error e =>
      simp only [abortsCleanly] at habP ⊢
      rw [failureAborts_append _ _ (by rfl)]
      exact habP
    | ok x =>
      obtain ⟨pA, pvA⟩ := x
      simp only [abortsCleanly] at habP
      dsimp only
      rcases hL : aggLoop o pA pvA true 2 ((n - 2) / 2) with ⟨evs2, r2⟩
      have habL := aggLoop_aborts o ((n - 2) / 2) pA pvA true 2
      rw [hL] at habL
      cases r2 with
      | error e =>
        simp only [abortsCleanly] at habL ⊢
        have hall : (([Event.buildCircuits, .proveRoot 0 true, .verifyRoot 0 true] :
            List Event) ++ evsP).all eventOk = true := by
          rw [List.all_append]
          simp [eventOk, habP]
        rw [failureAborts_append _ _ hall]
        exact habL
      | ok y =>
        obtain ⟨fp, fpv⟩ := y
        simp only [abortsCleanly] at habL
        dsimp only
        have habB := blockAndWrap_abortsCleanly o fp fpv
        rcases hB : blockAndWrap o fp fpv with ⟨evsB, rB⟩
        rw [hB] at habB
        have hall : ((([Event.buildCircuits, .proveRoot 0 true, .verifyRoot 0 true] :
            List Event) ++ evsP) ++ evs2).all eventOk = true := by
          rw [List.all_append, List.all_append]
          simp [eventOk, habP, habL]
        cases rB with
        | error e =>
          simp only [abortsCleanly] at habB ⊢
          rw [failureAborts_append _ _ hall]
          exact habB
        | ok z =>
          simp only [abortsCleanly] at habB ⊢
          simp [List.all_append, eventOk, habP, habL, habB]
  · rw [if_neg hp]
    dsimp only
    rcases hL : aggLoop o (.root 0) (o.rootPV 0) false 1 ((n - 1) / 2) with ⟨evs2, r2⟩
    have habL := aggLoop_aborts o ((n - 1) / 2) (.root 0) (o.rootPV 0) false 1
    rw [hL] at habL
    cases r2 with
    | error e =>
      simp only [abortsCleanly] at habL ⊢
      rw [failureAborts_append _ _ (by rfl)]
      exact habL
    | ok y =>
      obtain ⟨fp, fpv⟩ := y
      simp only [abortsCleanly] at habL
      dsimp only
      have habB := blockAndWrap_abortsCleanly o fp fpv
      rcases hB : blockAndWrap o fp fpv with ⟨evsB, rB⟩
      rw [hB] at habB
      have hall : ((([Event.buildCircuits, .proveRoot 0 true, .verifyRoot 0 true] :
          List Event) ++ []) ++ evs2).all eventOk = true := by
        rw [List.all_append, List.all_append]
        simp [eventOk, habL]
      cases rB with
      | error e =>
        simp only [abortsCleanly] at habB ⊢
        rw [failureAborts_append _ _ hall]
        exact habB
      | ok z =>
        simp only [abortsCleanly] at habB ⊢
        simp [List.all_append, eventOk, habL, habB]

theorem agg_all_notSeg (n : Nat) (o : Oracle) (hge : 2 ≤ n) :
    isSegCountErr (aggregate_proof_all n o).2 = false := by
  unfold aggregate_proof_all
  have hn : ¬ n < 2 := by omega
  rw [if_neg hn]
  cases h1 : o.proveRootOk 0 with
  | false => simp [h1, isSegCountErr]
  | true =>
  cases h2 : o.verifyRootOk 0 with
  | false => simp [h1, h2, isSegCountErr]
  | true =>
  rw [if_neg (by decide), if_neg (by decide)]
  dsimp only
  by_cases hp : n % 2 = 0
  · rw [if_pos hp]
    have hns := evenPre_notSeg o
    rcases hP : evenPre o with ⟨evsP, rP⟩
    rw [hP] at hns
    cases rP with
    | error e => exact hns
    | ok x =>
      obtain ⟨pA, pvA⟩ := x
      dsimp only
      rcases hL : aggLoop o pA pvA true 2 ((n - 2) / 2) with ⟨evs2, r2⟩
      have hnsL := aggLoop_notSeg o ((n - 2) / 2) pA pvA true 2
      rw [hL] at hnsL
      cases r2 with
      | error e => exact hnsL
      | ok y =>
        obtain ⟨fp, fpv⟩ := y
        dsimp only
        exact blockAndWrap_notSeg o fp fpv
  · rw [if_neg hp]
    dsimp only
    rcases hL : aggLoop o (.root 0) (o.rootPV 0) false 1 ((n - 1) / 2) with ⟨evs2, r2⟩
    have hnsL := aggLoop_notSeg o ((n - 1) / 2) (.root 0) (o.rootPV 0) false 1
    rw [hL] at hnsL
    cases r2 with
    | error e => exact hnsL
    | ok y =>
      obtain ⟨fp, fpv⟩ := y
      dsimp only
      exact blockAndWrap_notSeg o fp fpv

theorem provedSegs_append (a b : List Event) :
    provedSegs (a ++ b) = provedSegs a ++ provedSegs b := by
  simp [provedSegs, List.filterMap_append]

theorem sidePairs_append (a b : List Event) :
    sidePairs (a ++ b) = sidePairs a ++ sidePairs b := by
  simp [sidePairs, List.filterMap_append]

theorem nestedLeftFlags_append (a b : List Event) :
    nestedLeftFlags (a ++ b) = nestedLeftFlags a ++ nestedLeftFlags b := by
  simp [nestedLeftFlags, List.filterMap_append]

theorem range_eq_cons_map (n : Nat) (h : 1 ≤ n) :
    List.range n = 0 :: (List.range (n - 1)).map (fun i => 1 + i) := by
  obtain ⟨m, rfl⟩ : ∃ m, n = m + 1 := ⟨n - 1, by omega⟩
  rw [List.range_succ_eq_map]
  simp
  intro a _
  omega

theorem range_eq_cons2_map (n : Nat) (h : 2 ≤ n) :
    List.range n = 0 :: 1 :: (List.range (n - 2)).map (fun i => 2 + i) := by
  obtain ⟨m, rfl⟩ : ∃ m, n = m + 2 := ⟨n - 2, by omega⟩
  rw [show m + 2 - 2 = m from by omega]
  rw [List.range_succ_eq_map, List.range_succ_eq_map]
  simp [List.map_map]
  intro a _
  omega

theorem final_pv_odd (pv : Nat → PublicValues) (n : Nat) (h2 : 2 ≤ n)
    (ho : n % 2 = 1) :
    (foldPV pv (pv 0) 1 ((n - 1) / 2)).roots_before = (pv 0).roots_before ∧
    (foldPV pv (pv 0) 1 ((n - 1) / 2)).roots_after = (pv (n - 1)).roots_after := by
  constructor
  · exact foldPV_roots_before pv _ _ _
  · obtain ⟨k, hk⟩ : ∃ k, (n - 1) / 2 = k + 1 := ⟨(n - 1) / 2 - 1, by omega⟩
    rw [hk, foldPV_roots_after]
    rw [show 1 + 2 * k + 1 = n - 1 from by omega]

theorem final_pv_even (pv : Nat → PublicValues) (n : Nat) (h2 : 2 ≤ n)
    (he : n % 2 = 0) :
    (foldPV pv ⟨(pv 0).roots_before, (pv 1).roots_after, (pv 1).userdata⟩ 2
        ((n - 2) / 2)).roots_before = (pv 0).roots_before ∧
    (foldPV pv ⟨(pv 0).roots_before, (pv 1).roots_after, (pv 1).userdata⟩ 2
        ((n - 2) / 2)).roots_after = (pv (n - 1)).roots_after := by
  constructor
  · exact foldPV_roots_before pv _ _ _
  · rcases hk : (n - 2) / 2 with _ | k
    · have hn2 : n = 2 := by omega
      subst hn2
      rfl
    · rw [foldPV_roots_after]
      rw [show 2 + 2 * k + 1 = n - 1 from by omega]

/-! ### Claim theorems -/

/-- Concrete per-segment public values used to instantiate the claims:
segment i goes from state commitment 3i to 3i+3 with user data i (a
continuous trace). -/
def pvW : Nat → PublicValues := fun i => ⟨3 * i, 3 * i + 3, i⟩

/-- Concrete per-segment public values violating the continuity invariant:
segment i ends at 10i + 5 while segment i+1 starts at 10(i+1). -/
def pvBad : Nat → PublicValues := fun i => ⟨10 * i, 10 * i + 5, i⟩

/-- Whether an event is a call to the external aggregator. -/
def isProveAggEvent : Event → Bool
  | .proveAgg _ _ _ _ _ _ => true
  | _ => false

/-- C10: prove_groth16 unconditionally aborts as unimplemented, producing no
events (in particular no wrapping work) and never a success, and the CLI
dispatch routes the prove_groth16 subcommand to it. -/
theorem claim10_groth16_unimplemented :
    prove_groth16 = ([], .error .unimplemented) ∧
    dispatch ["zkmips", "prove_groth16"] = CliAction.proveGroth16 := by
  exact ⟨rfl, by decide⟩

/-- C8: a segment count below two is rejected with the usage error before any
event (circuit construction or proving) occurs, and for two or more segments
that error branch is unreachable: the run never returns segCountTooSmall. -/
theorem claim8_min_count (n : Nat) (o : Oracle) :
    (n < 2 → aggregate_proof_all n o = ([], .error .segCountTooSmall)) ∧
    (2 ≤ n → isSegCountErr (aggregate_proof_all n o).2 = false) := by
  constructor
  · intro h
    simp [aggregate_proof_all, h]
  · intro h
    exact agg_all_notSeg n o h

/-- Witness for C8 at segment counts 1 and 2. -/
theorem claim8_witness :
    aggregate_proof_all 1 (Oracle.ofPV pvW) = ([], .error .segCountTooSmall) ∧
    isSegCountErr (aggregate_proof_all 2 (Oracle.ofPV pvW)).2 = false :=
  ⟨(claim8_min_count 1 (Oracle.ofPV pvW)).1 (by decide),
   (claim8_min_count 2 (Oracle.ofPV pvW)).2 (by decide)⟩

/-- C6 counterexample: with a failing block verification, the run returns the
verification error, yet the wrapping step is still executed after the failed
verify_block call (the final trace ends with verifyBlock false followed by
wrap), so a verification failure does not always abort before wrapping. -/
theorem claim6_counterexample :
    (aggregate_proof_all 2 { Oracle.ofPV pvW with verifyBlockOk := false }).2 =
      .error .verifyBlockFailed ∧
    (aggregate_proof_all 2 { Oracle.ofPV pvW with verifyBlockOk := false }).1 =
      [.buildCircuits, .proveRoot 0 true, .verifyRoot 0 true, .proveRoot 1 true,
       .verifyRoot 1 true, .proveAgg false (.root 0) false (.root 1) ⟨0, 6, 1⟩ true,
       .verifyAgg (.agg (.root 0) (.root 1)) true,
       .proveBlock (.agg (.root 0) (.root 1)) ⟨0, 6, 1⟩ true,
       .verifyBlock false, .wrap] := ⟨rfl, rfl⟩

/-- C6 amended: every failed prover or verifier call is the last event of the
trace — no further proving, aggregation or block work happens after it — with
the single exception of a failed block verification, which is followed by
exactly the wrapping step before the error is returned. -/
theorem claim6_abort_on_failure (n : Nat) (o : Oracle) :
    failureAborts (aggregate_proof_all n o).1 = true := by
  have h := agg_all_aborts n o
  rcases hA : aggregate_proof_all n o with ⟨evs, r⟩
  rw [hA] at h
  cases r with
  | ok x =>
    simp only [abortsCleanly] at h
    exact all_eventOk_failureAborts _ h
  | error e =>
    simpa [abortsCleanly] using h

/-- C5 counterexample: with root public values violating continuity
(left.roots_after = 5, right.roots_before = 10), the pipeline still invokes
the external aggregator and completes successfully — no invariant-violation
rejection happens before prove_aggregation. -/
theorem claim5_counterexample :
    ((pvBad 0).roots_after == (pvBad 1).roots_before) = false ∧
    (aggregate_proof_all 2 (Oracle.ofPV pvBad)).1.any isProveAggEvent = true ∧
    (aggregate_proof_all 2 (Oracle.ofPV pvBad)).2 =
      .ok (.agg (.root 0) (.root 1), ⟨0, 15, 1⟩) := ⟨rfl, rfl, rfl⟩

/-- C5 amended: the pipeline performs no continuity check: even when
left.roots_after differs from right.roots_before, both aggregate_proof_all and
aggregate_proof invoke the external aggregator and (absent external failures)
succeed, the merged public values being formed from left.roots_before and
right.roots_after regardless. -/
theorem claim5_no_continuity_check (pv : Nat → PublicValues)
    (_hmis : (pv 0).roots_after ≠ (pv 1).roots_before) :
    (aggregate_proof_all 2 (Oracle.ofPV pv)).1.any isProveAggEvent = true ∧
    (aggregate_proof_all 2 (Oracle.ofPV pv)).2 =
      .ok (.agg (.root 0) (.root 1),
        ⟨(pv 0).roots_before, (pv 1).roots_after, (pv 1).userdata⟩) ∧
    (aggregate_proof (Oracle.ofPV pv)).1.any isProveAggEvent = true ∧
    (aggregate_proof (Oracle.ofPV pv)).2 =
      .ok (.agg (.root 0) (.root 1),
        ⟨(pv 0).roots_before, (pv 1).roots_after, (pv 1).userdata⟩) := by
  rw [agg_all_ofPV_even pv 2 (by omega) (by decide)]
  refine ⟨by simp [isProveAggEvent], rfl, ?_, ?_⟩
  · simp [aggregate_proof, Oracle.ofPV, isProveAggEvent]
  · simp [aggregate_proof, Oracle.ofPV, prove_aggregation_pv]

/-- Witness for C5 amended at the discontinuous values pvBad. -/
theorem claim5_witness :
    (aggregate_proof_all 2 (Oracle.ofPV pvBad)).1.any isProveAggEvent = true ∧
    (aggregate_proof_all 2 (Oracle.ofPV pvBad)).2 =
      .ok (.agg (.root 0) (.root 1),
        ⟨(pvBad 0).roots_before, (pvBad 1).roots_after, (pvBad 1).userdata⟩) ∧
    (aggregate_proof (Oracle.ofPV pvBad)).1.any isProveAggEvent = true ∧
    (aggregate_proof (Oracle.ofPV pvBad)).2 =
      .ok (.agg (.root 0) (.root 1),
        ⟨(pvBad 0).roots_before, (pvBad 1).roots_after, (pvBad 1).userdata⟩) :=
  claim5_no_continuity_check pvBad (by decide)

/-- C1: for every segment count n >= 2 (odd or even scheduling path alike),
the run on an all-success oracle ends with the accumulator public values — the
exact values passed to prove_block — having roots_before equal to segment 0's
roots_before and roots_after equal to segment (n-1)'s roots_after. -/
theorem claim1_final_public_values (n : Nat) (pv : Nat → PublicValues) (h2 : 2 ≤ n) :
    ∃ fp fpv, (aggregate_proof_all n (Oracle.ofPV pv)).2 = .ok (fp, fpv) ∧
      fpv.roots_before = (pv 0).roots_before ∧
      fpv.roots_after = (pv (n - 1)).roots_after ∧
      Event.proveBlock fp fpv true ∈ (aggregate_proof_all n (Oracle.ofPV pv)).1 := by
  by_cases he : n % 2 = 0
  · rw [agg_all_ofPV_even pv n h2 he]
    exact ⟨_, _, rfl, (final_pv_even pv n h2 he).1, (final_pv_even pv n h2 he).2, by simp⟩
  · have ho : n % 2 = 1 := by omega
    rw [agg_all_ofPV_odd pv n h2 ho]
    exact ⟨_, _, rfl, (final_pv_odd pv n h2 ho).1, (final_pv_odd pv n h2 ho).2, by simp⟩

/-- Witness for C1 on the odd path (n = 5) and the even path (n = 4). -/
theorem claim1_witness :
    (∃ fp fpv, (aggregate_proof_all 5 (Oracle.ofPV pvW)).2 = .ok (fp, fpv) ∧
      fpv.roots_before = (pvW 0).roots_before ∧
      fpv.roots_after = (pvW 4).roots_after ∧
      Event.proveBlock fp fpv true ∈ (aggregate_proof_all 5 (Oracle.ofPV pvW)).1) ∧
    (∃ fp fpv, (aggregate_proof_all 4 (Oracle.ofPV pvW)).2 = .ok (fp, fpv) ∧
      fpv.roots_before = (pvW 0).roots_before ∧
      fpv.roots_after = (pvW 3).roots_after ∧
      Event.proveBlock fp fpv true ∈ (aggregate_proof_all 4 (Oracle.ofPV pvW)).1) :=
  ⟨claim1_final_public_values 5 pvW (by decide),
   claim1_final_public_values 4 pvW (by decide)⟩

/-- C2: for every odd segment count, the accumulator starts as the root proof
of segment 0, the main loop combines root-proof pairs (1,2), (3,4), ...,
(n-2, n-1) in that order, every segment 0..n-1 is proved exactly once (and in
order), and the final proof is the left fold of those side aggregates onto
segment 0's root proof. -/
theorem claim2_odd_scheduling (n : Nat) (pv : Nat → PublicValues) (h2 : 2 ≤ n)
    (ho : n % 2 = 1) :
    provedSegs (aggregate_proof_all n (Oracle.ofPV pv)).1 = List.range n ∧
    sidePairs (aggregate_proof_all n (Oracle.ofPV pv)).1 =
      (List.range ((n - 1) / 2)).map (fun i => (2 * i + 1, 2 * i + 2)) ∧
    ∃ fpv, (aggregate_proof_all n (Oracle.ofPV pv)).2 =
      .ok (foldProof (.root 0) 1 ((n - 1) / 2), fpv) := by
  rw [agg_all_ofPV_odd pv n h2 ho]
  refine ⟨?_, ?_, ⟨_, rfl⟩⟩
  · rw [provedSegs_append, provedSegs_append, provedSegs_loopTrace]
    rw [show 2 * ((n - 1) / 2) = n - 1 from by omega]
    rw [range_eq_cons_map n (by omega)]
    simp [provedSegs]
  · rw [sidePairs_append, sidePairs_append, sidePairs_loopTrace]
    simp [sidePairs]
    intro a _
    omega

/-- Witness for C2 at n = 5: segments 0..4 each proved once, pairs (1,2) then
(3,4). -/
theorem claim2_witness :
    provedSegs (aggregate_proof_all 5 (Oracle.ofPV pvW)).1 = List.range 5 ∧
    sidePairs (aggregate_proof_all 5 (Oracle.ofPV pvW)).1 = [(1, 2), (3, 4)] ∧
    ∃ fpv, (aggregate_proof_all 5 (Oracle.ofPV pvW)).2 =
      .ok (foldProof (.root 0) 1 2, fpv) :=
  claim2_odd_scheduling 5 pvW (by decide) (by decide)

/-- C3: for every even segment count n >= 2, the first combination joins the
root proofs of segments 0 and 1, the main loop then combines pairs (2,3),
(4,5), ..., (n-2, n-1) in that order, every segment 0..n-1 is proved exactly
once (and in order), and the final proof is the left fold of the side
aggregates onto the first aggregate of segments 0 and 1. -/
theorem claim3_even_scheduling (n : Nat) (pv : Nat → PublicValues) (h2 : 2 ≤ n)
    (he : n % 2 = 0) :
    provedSegs (aggregate_proof_all n (Oracle.ofPV pv)).1 = List.range n ∧
    sidePairs (aggregate_proof_all n (Oracle.ofPV pv)).1 =
      (List.range (n / 2)).map (fun i => (2 * i, 2 * i + 1)) ∧
    ∃ fpv, (aggregate_proof_all n (Oracle.ofPV pv)).2 =
      .ok (foldProof (.agg (.root 0) (.root 1)) 2 ((n - 2) / 2), fpv) := by
  rw [agg_all_ofPV_even pv n h2 he]
  refine ⟨?_, ?_, ⟨_, rfl⟩⟩
  · rw [provedSegs_append, provedSegs_append, provedSegs_loopTrace]
    rw [show 2 * ((n - 2) / 2) = n - 2 from by omega]
    rw [range_eq_cons2_map n h2]
    simp [provedSegs]
  · rw [sidePairs_append, sidePairs_append, sidePairs_loopTrace]
    rw [show n / 2 = (n - 2) / 2 + 1 from by omega, List.range_succ_eq_map]
    simp [sidePairs, List.map_map]
    intro a _
    omega

/-- Witness for C3 at n = 4: pair (0,1) first, then (2,3). -/
theorem claim3_witness :
    provedSegs (aggregate_proof_all 4 (Oracle.ofPV pvW)).1 = List.range 4 ∧
    sidePairs (aggregate_proof_all 4 (Oracle.ofPV pvW)).1 = [(0, 1), (2, 3)] ∧
    ∃ fpv, (aggregate_proof_all 4 (Oracle.ofPV pvW)).2 =
      .ok (foldProof (.agg (.root 0) (.root 1)) 2 1, fpv) :=
  claim3_even_scheduling 4 pvW (by decide) (by decide)

/-- C7: every aggregation call carries kind flags matching the actual kinds of
its operands — side aggregates combine two root proofs with both flags false,
and each accumulator combination passes the accumulator's own kind on the left
and true on the right — and the left flags of the accumulator combinations are
false only for the very first combination on the odd path, true ever after. -/
theorem claim7_flag_discipline (n : Nat) (pv : Nat → PublicValues) :
    ((aggregate_proof_all n (Oracle.ofPV pv)).1.all aggEventShape = true) ∧
    (n % 2 = 1 → nestedLeftFlags (aggregate_proof_all n (Oracle.ofPV pv)).1 =
      (match (n - 1) / 2 with
       | 0 => ([] : List Bool)
       | k + 1 => false :: List.replicate k true)) ∧
    (n % 2 = 0 → nestedLeftFlags (aggregate_proof_all n (Oracle.ofPV pv)).1 =
      List.replicate ((n - 2) / 2) true) := by
  by_cases hn : n < 2
  · refine ⟨by simp [aggregate_proof_all, hn], fun ho => ?_, fun he => ?_⟩
    · have h1 : n = 1 := by omega
      subst h1
      simp [aggregate_proof_all, nestedLeftFlags]
    · have h0 : n = 0 := by omega
      subst h0
      simp [aggregate_proof_all, nestedLeftFlags]
  · have h2 : 2 ≤ n := by omega
    by_cases he : n % 2 = 0
    · rw [agg_all_ofPV_even pv n h2 he]
      refine ⟨?_, fun ho => absurd ho (by omega), fun _ => ?_⟩
      · simp only [List.all_append, Bool.and_eq_true]
        refine ⟨⟨by simp [aggEventShape, Proof.isAgg], ?_⟩, by simp [aggEventShape]⟩
        exact aggEventShape_loopTrace pv _ _ _ _ _ rfl
      · rw [nestedLeftFlags_append, nestedLeftFlags_append, nestedLeftFlags_loopTrace]
        simp [nestedLeftFlags]
        rcases hk : (n - 2) / 2 with _ | k
        · rfl
        · simp [List.replicate_succ]
    · have ho : n % 2 = 1 := by omega
      rw [agg_all_ofPV_odd pv n h2 ho]
      refine ⟨?_, fun _ => ?_, fun he' => absurd he' (by omega)⟩
      · simp only [List.all_append, Bool.and_eq_true]
        refine ⟨⟨by simp [aggEventShape], ?_⟩, by simp [aggEventShape]⟩
        exact aggEventShape_loopTrace pv _ _ _ _ _ rfl
      · rw [nestedLeftFlags_append, nestedLeftFlags_append, nestedLeftFlags_loopTrace]
        simp [nestedLeftFlags]

/-- Witness for C7 at n = 5 (left flags false then true) and n = 4 (all
true). -/
theorem claim7_witness :
    (aggregate_proof_all 5 (Oracle.ofPV pvW)).1.all aggEventShape = true ∧
    nestedLeftFlags (aggregate_proof_all 5 (Oracle.ofPV pvW)).1 = [false, true] ∧
    nestedLeftFlags (aggregate_proof_all 4 (Oracle.ofPV pvW)).1 = [true] :=
  ⟨(claim7_flag_discipline 5 pvW).1,
   (claim7_flag_discipline 5 pvW).2.1 (by decide),
   (claim7_flag_discipline 4 pvW).2.2 (by decide)⟩

/-- C4: every call to the external aggregator, in aggregate_proof and in
aggregate_proof_all alike, passes merged public values that are exactly
roots_before of the left proof, roots_after of the right proof and userdata of
the right proof (left being the earlier proof). -/
theorem claim4_merged_public_values (n : Nat) (pv : Nat → PublicValues) :
    ((aggregate_proof_all n (Oracle.ofPV pv)).1.all (mergedFaithful pv) = true) ∧
    ((aggregate_proof (Oracle.ofPV pv)).1.all (mergedFaithful pv) = true) := by
  constructor
  · by_cases hn : n < 2
    · simp [aggregate_proof_all, hn]
    · have h2 : 2 ≤ n := by omega
      by_cases he : n % 2 = 0
      · rw [agg_all_ofPV_even pv n h2 he]
        simp only [List.all_append, Bool.and_eq_true]
        refine ⟨⟨by simp [mergedFaithful, proofPV], ?_⟩, by simp [mergedFaithful]⟩
        exact mergedFaithful_loopTrace pv _ _ _ _ _ rfl
      · have ho : n % 2 = 1 := by omega
        rw [agg_all_ofPV_odd pv n h2 ho]
        simp only [List.all_append, Bool.and_eq_true]
        refine ⟨⟨by simp [mergedFaithful], ?_⟩, by simp [mergedFaithful]⟩
        exact mergedFaithful_loopTrace pv _ _ _ _ _ rfl
  · simp [aggregate_proof, Oracle.ofPV, mergedFaithful, proofPV, prove_aggregation_pv]

/-- C9: scanning any complete run left to right, every aggregate proof fed to
a further aggregation call or to the block prover has already appeared in a
successful verify_aggregation event — no unverified aggregate is ever used
downstream, in aggregate_proof_all and in aggregate_proof alike. -/
theorem claim9_verified_before_use (n : Nat) (pv : Nat → PublicValues) :
    checkAggDiscipline (aggregate_proof_all n (Oracle.ofPV pv)).1 [] = true ∧
    checkAggDiscipline (aggregate_proof (Oracle.ofPV pv)).1 [] = true := by
  constructor
  · by_cases hn : n < 2
    · simp [aggregate_proof_all, hn, checkAggDiscipline]
    · have h2 : 2 ≤ n := by omega
      by_cases he : n % 2 = 0
      · rw [agg_all_ofPV_even pv n h2 he]
        rw [checkAggDiscipline_append, checkAggDiscipline_append]
        have hvA : verifiedAfter
            [Event.buildCircuits, .proveRoot 0 true, .verifyRoot 0 true, .proveRoot 1 true,
             .verifyRoot 1 true,
             .proveAgg false (.root 0) false (.root 1)
               ⟨(pv 0).roots_before, (pv 1).roots_after, (pv 1).userdata⟩ true,
             .verifyAgg (.agg (.root 0) (.root 1)) true] [] =
            [Proof.agg (.root 0) (.root 1)] := by
          simp [verifiedAfter, postVerified]
        rw [verifiedAfter_append, hvA]
        simp only [Bool.and_eq_true]
        refine ⟨⟨?_, ?_⟩, ?_⟩
        · simp [checkAggDiscipline, aggInputsVerified, postVerified, Proof.isAgg]
        · exact discipline_loopTrace pv _ _ _ _ _ _ (fun _ => List.mem_cons_self _ _)
        · have hmem := mem_verifiedAfter_loopTrace pv ((n - 2) / 2)
            (Proof.agg (.root 0) (.root 1))
            ⟨(pv 0).roots_before, (pv 1).roots_after, (pv 1).userdata⟩ true 2
            [Proof.agg (.root 0) (.root 1)] (Or.inl (List.mem_cons_self _ _))
          simp [checkAggDiscipline, aggInputsVerified, postVerified, hmem]
      · have ho : n % 2 = 1 := by omega
        rw [agg_all_ofPV_odd pv n h2 ho]
        rw [checkAggDiscipline_append, checkAggDiscipline_append]
        have hvA : verifiedAfter [Event.buildCircuits, .proveRoot 0 true,
            .verifyRoot 0 true] ([] : List Proof) = [] := by
          simp [verifiedAfter, postVerified]
        rw [verifiedAfter_append, hvA]
        simp only [Bool.and_eq_true]
        refine ⟨⟨?_, ?_⟩, ?_⟩
        · simp [checkAggDiscipline, aggInputsVerified, postVerified]
        · exact discipline_loopTrace pv _ _ _ _ _ _ (fun h => absurd h (by decide))
        · have hmem := mem_verifiedAfter_loopTrace pv ((n - 1) / 2) (.root 0) (pv 0)
            false 1 [] (Or.inr (by omega))
          simp [checkAggDiscipline, aggInputsVerified, postVerified, hmem]
  · simp [aggregate_proof, Oracle.ofPV, checkAggDiscipline, aggInputsVerified,
      postVerified, Proof.isAgg, prove_aggregation_pv]

end ZKM
